import Mathlib

/-!
Verification development for the node9-proxy execution-security layer.

The definitions below are a shallow embedding of src/core.ts (the current
version of the policy engine), src/index.ts (the protect SDK wrapper) and the
runProxy interceptor of src/cli.ts.  External primitives that the code merely
consumes (the sh-syntax structural shell parser, the fetch transport, the
interactive confirm prompt, JSON.parse of a stream line) are passed in as
explicit arguments, so every function here is total and executable; the
policy logic itself is translated statement by statement from the source.

String manipulation is carried out on the underlying character lists with
structural recursion so that every concrete policy evaluation reduces inside
the kernel.
-/

/-- Lowercase an ASCII letter, leaving every other character unchanged (the
    effect of String.prototype.toLowerCase on the ASCII inputs the policy
    engine handles). -/
def lowerChar (c : Char) : Char :=
  if 65 ≤ c.toNat ∧ c.toNat ≤ 90 then Char.ofNat (c.toNat + 32) else c

/-- Lowercase a whole string characterwise. -/
def lowerStr (s : String) : String :=
  ⟨s.data.map lowerChar⟩

/-- Split a character list at every character satisfying p, keeping empty
    pieces (the behaviour of String.prototype.split with a single-character
    class). -/
def splitCharsAux (p : Char → Bool) : List Char → List Char → List (List Char)
  | [], acc => [acc.reverse]
  | c :: cs, acc =>
    if p c then acc.reverse :: splitCharsAux p cs []
    else splitCharsAux p cs (c :: acc)

/-- Split a string at every character satisfying p and drop the empty pieces
    (the split-then-filter(Boolean) composition used throughout
    src/core.ts). -/
def splitDrop (p : Char → Bool) (s : String) : List String :=
  ((splitCharsAux p s.data []).filter (fun t => ¬ t.isEmpty)).map String.mk

/-- Whitespace as matched by the \s class of the JavaScript regexes in
    src/core.ts, restricted to the ASCII range. -/
def isWs (c : Char) : Bool :=
  c = ' ' || c = '\t' || c = '\n' || c = '\r' || c = '\x0b' || c = '\x0c'

/-- The policy engine output: evaluatePolicy returns the string literal
    allow or review in the source; we model it as a two-value enum. -/
inductive Decision where
  | allow
  | review
deriving DecidableEq, Repr

/-- Glob matching of one path segment, as picomatch interprets a pattern
    segment: a star matches any (possibly empty) run of characters inside the
    segment, a question mark matches exactly one character, every other
    character matches itself.  Inputs are already lowercased (picomatch is
    invoked with the nocase option).  Recursion is structural on a fuel
    argument so that concrete evaluations reduce in the kernel; every step
    shortens pattern plus text, so any fuel above that sum is exact. -/
def segMatchF : Nat → List Char → List Char → Bool
  | 0, _, _ => false
  | _ + 1, [], [] => true
  | fuel + 1, '*' :: ps, [] => segMatchF fuel ps []
  | fuel + 1, '*' :: ps, c :: cs =>
    segMatchF fuel ps (c :: cs) || segMatchF fuel ('*' :: ps) cs
  | fuel + 1, '?' :: ps, _ :: cs => segMatchF fuel ps cs
  | fuel + 1, p :: ps, c :: cs => p == c && segMatchF fuel ps cs
  | _ + 1, _ :: _, [] => false
  | _ + 1, [], _ :: _ => false

/-- One-segment glob match with enough fuel to be exact. -/
def segMatch (ps cs : List Char) : Bool :=
  segMatchF (ps.length + cs.length + 1) ps cs

/-- Glob matching of slash-separated segment lists: a double-star segment
    matches zero or more whole segments (so the pattern dist/** matches the
    bare text dist, and a leading **/ may match nothing, as picomatch does
    and as the repository test suite relies on).  Fueled for the same reason
    as segMatchF; every step shortens pattern segments plus text segments. -/
def globSegsF : Nat → List (List Char) → List (List Char) → Bool
  | 0, _, _ => false
  | _ + 1, [], [] => true
  | fuel + 1, p :: ps, ts =>
    if p = ['*', '*'] then
      globSegsF fuel ps ts ||
        (match ts with
         | [] => false
         | _ :: ts' => globSegsF fuel (p :: ps) ts')
    else
      (match ts with
       | [] => false
       | t :: ts' => segMatch p t && globSegsF fuel ps ts')
  | _ + 1, [], _ :: _ => false

/-- Segment-list glob match with enough fuel to be exact. -/
def globSegs (ps ts : List (List Char)) : Bool :=
  globSegsF (ps.length + ts.length + 1) ps ts

/-- One picomatch pattern applied to one candidate text, case-insensitively
    (the source constructs the matcher with the nocase and dot options; with
    nocase realised by lowercasing both sides). -/
def picomatchOne (pattern text : String) : Bool :=
  globSegs (splitCharsAux (fun c => c = '/') (lowerStr pattern).data [])
    (splitCharsAux (fun c => c = '/') (lowerStr text).data [])

/-- Drop a single leading "./" from the text, as the regex replace of
    matchesPattern in src/core.ts does. -/
def stripDotSlash (text : String) : String :=
  match text.data with
  | '.' :: '/' :: rest => ⟨rest⟩
  | _ => text

/-- matchesPattern from src/core.ts: an empty pattern list never matches;
    otherwise try the lowercased text directly, then the text with a leading
    "./" removed, then that stripped text with "./" prefixed again. -/
def matchesPattern (text : String) (patterns : List String) : Bool :=
  if patterns.isEmpty then false
  else
    let target := lowerStr text
    if patterns.any (fun p => picomatchOne p target) then true
    else
      let withoutDotSlash := stripDotSlash text
      patterns.any (fun p => picomatchOne p withoutDotSlash) ||
        patterns.any (fun p => picomatchOne p ("./" ++ withoutDotSlash))

/-- tokenize from src/core.ts: lowercase the tool name and split it on
    underscores, dots, dashes and whitespace, keeping only nonempty tokens. -/
def tokenize (toolName : String) : List String :=
  splitDrop (fun c => c = '_' || c = '.' || c = '-' || isWs c) (lowerStr toolName)

/-- containsDangerousWord from src/core.ts: some configured word, lowercased,
    is literally one of the tokens of the tool name. -/
def containsDangerousWord (toolName : String) (dangerousWords : List String) : Bool :=
  dangerousWords.any (fun word => (tokenize toolName).contains (lowerStr word))

/-- A JSON value, the model of the untyped JavaScript values the policy
    engine probes (tool arguments, JSON-RPC messages).  Numbers are modelled
    as integers, which covers every number the claims involve. -/
inductive Json where
  | null
  | bool (b : Bool)
  | num (n : Int)
  | str (s : String)
  | arr (xs : List Json)
  | obj (fields : List (String × Json))

/-- Field access on an object; any other value has no fields (JavaScript
    property access on them yields undefined, here none). -/
def Json.getField : Json → String → Option Json
  | .obj fields, k => (fields.find? (fun f => f.1 == k)).map (fun f => f.2)
  | _, _ => none

/-- JavaScript truthiness of a JSON value (NaN is not modelled). -/
def jsTruthy : Json → Bool
  | .null => false
  | .bool b => b
  | .num n => n != 0
  | .str s => !s.data.isEmpty
  | .arr _ => true
  | .obj _ => true

/-- Whether the value has typeof object and is not null, the guard of
    getNestedValue in src/core.ts (arrays included). -/
def Json.isObjLike : Json → Bool
  | .obj _ => true
  | .arr _ => true
  | _ => false

/-- One step of the optional-chained reduce in getNestedValue: object
    property lookup, numeric index into an array, undefined otherwise.
    (Character indexing into strings, which JavaScript would also allow, is
    never exercised by the configuration paths of this repository.) -/
def nestedStep : Option Json → String → Option Json
  | some (.obj fields), k => (fields.find? (fun f => f.1 == k)).map (fun f => f.2)
  | some (.arr xs), k =>
    match k.toNat? with
    | some i => xs.get? i
    | none => none
  | _, _ => none

/-- getNestedValue from src/core.ts: reject non-object roots, then follow the
    dot-separated path with optional chaining. -/
def getNestedValue (obj : Json) (path : String) : Option Json :=
  if !obj.isObjLike then none
  else ((splitCharsAux (fun c => c = '.') path.data []).map String.mk).foldl nestedStep (some obj)

/-- extractShellCommand from src/core.ts: the first toolInspection pattern
    matching the tool name selects a dot path; the value at that path is the
    shell command when it is a string.  The inspection table keeps the
    insertion order of the configuration object, as Object.keys does. -/
def extractShellCommand (toolName : String) (args : Json)
    (toolInspection : List (String × String)) : Option String :=
  match toolInspection.find? (fun pr => matchesPattern toolName [pr.1]) with
  | none => none
  | some pr =>
    match getNestedValue args pr.2 with
    | some (.str s) => some s
    | _ => none

/-- The result record of analyzeShellCommand in src/core.ts. -/
structure ShellAnalysis where
  actions : List String
  paths : List String
  allTokens : List String
deriving DecidableEq, Repr

/-- The addToken closure of analyzeShellCommand: push the lowercased token;
    if it contains a slash also push its nonempty slash segments; if it
    starts with a dash also push it with all leading dashes removed. -/
def addTokenList (token : String) : List String :=
  let lower := lowerStr token
  [lower]
    ++ (if lower.data.contains '/' then
          (splitCharsAux (fun c => c = '/') lower.data []).filter (fun t => !t.isEmpty)
            |>.map String.mk
        else [])
    ++ (if lower.data.head? = some '-' then [⟨lower.data.dropWhile (fun c => c = '-')⟩] else [])

/-- The structural (AST) pass of analyzeShellCommand.  The sh-syntax parser
    is external to the repository, so its outcome is an input here: none
    represents a parse exception, some calls the nonempty joined argument
    words of each CallExpr node in walk order.  For each call the first word
    becomes an action (lowercased), every word feeds addToken, and the
    non-flag words after the first become paths. -/
def astContrib (calls : List (List String)) : ShellAnalysis :=
  calls.foldl
    (fun acc parts =>
      match parts with
      | [] => acc
      | a :: rest =>
        { actions := acc.actions ++ [lowerStr a]
          allTokens := acc.allTokens ++ parts.flatMap addTokenList
          paths := acc.paths ++ rest.filter (fun p => !(p.data.head? = some '-')) })
    ⟨[], [], []⟩

/-- The backslash-unescape of the lexical pass: a backslash followed by a
    character is replaced by that character alone.  (The JavaScript dot does
    not match a newline; no shell command of interest contains one.) -/
def unescape : List Char → List Char
  | [] => []
  | '\\' :: c :: rest => c :: unescape rest
  | c :: rest => c :: unescape rest

/-- Replace double quotes, single quotes and angle brackets by spaces, as
    the sanitising replace of the lexical pass does. -/
def stripQuotes (cs : List Char) : List Char :=
  cs.map (fun c => if c = '"' || c.toNat = 39 || c = '<' || c = '>' then ' ' else c)

/-- Split on the chain operators of the lexical pass: pipe, semicolon,
    ampersand, a dollar immediately followed by an opening parenthesis, a
    closing parenthesis, and a backquote.  Empty segments are kept, exactly
    as String.prototype.split produces them; the segment walk skips them. -/
def chainSplitAux : List Char → List Char → List (List Char)
  | [], acc => [acc.reverse]
  | '$' :: '(' :: rest, acc => acc.reverse :: chainSplitAux rest []
  | c :: rest, acc =>
    if c = '|' || c = ';' || c = '&' || c = ')' || c.toNat = 96 then
      acc.reverse :: chainSplitAux rest []
    else
      chainSplitAux rest (c :: acc)

/-- The chain segments of a command string after unescaping and quote
    stripping. -/
def chainSegments (command : String) : List String :=
  (chainSplitAux (stripQuotes (unescape command.data)) []).map String.mk

/-- The per-segment walk of the lexical fallback pass: the first whitespace
    token of a segment is an action (lowercased, deduplicated), every token
    feeds addToken, and each later token not starting with a dash and not
    textually equal to the first token is a path (deduplicated). -/
def lexSegment (st : ShellAnalysis) (segment : String) : ShellAnalysis :=
  match splitDrop isWs segment with
  | [] => st
  | t0 :: _ =>
    let action := lowerStr t0
    let st1 :=
      if st.actions.contains action then st
      else { st with actions := st.actions ++ [action] }
    (splitDrop isWs segment).foldl
      (fun acc t =>
        let acc1 := { acc with allTokens := acc.allTokens ++ addTokenList t }
        if t ≠ t0 && !(t.data.head? = some '-') && !acc1.paths.contains t then
          { acc1 with paths := acc1.paths ++ [t] }
        else acc1)
      st1

/-- The lexical (semantic fallback) pass of analyzeShellCommand, appended to
    whatever the structural pass already produced. -/
def lexicalPass (st : ShellAnalysis) (command : String) : ShellAnalysis :=
  (chainSegments command).foldl lexSegment st

/-- analyzeShellCommand from src/core.ts (current version): run the
    structural pass, and run the lexical pass only when the token set is
    still empty afterwards — which is the case exactly when the structural
    pass threw or contributed no call. -/
def analyzeShellCommand (ast : Option (List (List String))) (command : String) : ShellAnalysis :=
  let base := match ast with
    | none => (⟨[], [], []⟩ : ShellAnalysis)
    | some calls => astContrib calls
  if base.allTokens.isEmpty then lexicalPass base command else base

/-- Whether a JavaScript value is an object carrying a lowercase type
    property — the gate (child and typeof child is object and type in child)
    under which the walk of analyzeShellCommand recurses into a child. -/
def hasTypeKey : Json → Bool
  | .obj fs => fs.any (fun f => f.1 == "type")
  | _ => false

/-- Whether the lowercase type property of a node is the string CallExpr,
    the condition under which the walk contributes. -/
def typeIsCallExpr (node : Json) : Bool :=
  match node.getField "type" with
  | some (.str s) => s == "CallExpr"
  | _ => false

/-- The own enumerable properties the for-in loop of the walk iterates, in
    insertion order; non-objects contribute none here (the walk is only ever
    invoked on objects). -/
def nodeFields : Json → List (String × Json)
  | .obj fs => fs
  | _ => []

/-- The Value of one word part, or empty when absent or not a string (the
    p.Value or-empty of the source). -/
def partValue (p : Json) : String :=
  match p.getField "Value" with
  | some (.str v) => v
  | _ => ""

/-- The joined part Values of one argument word of a CallExpr node. -/
def wordJoin (arg : Json) : String :=
  match arg.getField "Parts" with
  | some (.arr ps) => ps.foldl (fun acc p => acc ++ partValue p) ""
  | _ => ""

/-- The nonempty joined argument words of a CallExpr node (the parts array
    of the source after its length filter). -/
def callExprParts (node : Json) : List String :=
  match node.getField "Args" with
  | some (.arr args) => (args.map wordJoin).filter (fun sx => !sx.data.isEmpty)
  | _ => []

/-- The walk of analyzeShellCommand over the serialized parse tree,
    returning the CallExpr part lists it would contribute, in visit order:
    a node whose lowercase type is CallExpr contributes its parts; the
    Parent key is skipped; array fields are walked elementwise and object
    fields directly, in both cases only when the child carries a lowercase
    type key.  Recursion is structural on fuel; the nil lemma below holds
    for every fuel value. -/
def walkCalls : Nat → Json → List (List String)
  | 0, _ => []
  | fuel + 1, node =>
    (if typeIsCallExpr node then [callExprParts node] else [])
      ++ (nodeFields node).flatMap (fun f =>
          if f.1 == "Parent" then []
          else
            match f.2 with
            | .arr xs =>
              xs.flatMap (fun child =>
                if hasTypeKey child then walkCalls fuel child else [])
            | v => if hasTypeKey v then walkCalls fuel v else [])

/-- Whether none of the walked children of a node carries a lowercase type
    key — satisfied by every node of the capitalized sh-syntax
    serialization, and making the walk stop at the node. -/
def noTypedChildren : Json → Bool
  | .obj fs =>
    fs.all (fun f =>
      f.1 == "Parent" ||
        (match f.2 with
         | .arr xs => xs.all (fun child => !hasTypeKey child)
         | v => !hasTypeKey v))
  | _ => true

/-- A serialized sh-syntax parse tree in the shape the parser actually
    produces for a command like rm -rf x: capitalized keys throughout, with
    the CallExpr node reachable only through children that carry no
    lowercase type key. -/
def shSampleAst : Json :=
  Json.obj
    [("Type", Json.str "File"), ("Name", Json.str "src"),
     ("Stmts", Json.arr
        [Json.obj
          [("Type", Json.str "Stmt"),
           ("Cmd", Json.obj
             [("Type", Json.str "CallExpr"),
              ("Args", Json.arr
                [Json.obj
                  [("Type", Json.str "Word"),
                   ("Parts", Json.arr
                     [Json.obj [("Type", Json.str "Lit"), ("Value", Json.str "rm")]])],
                 Json.obj
                  [("Type", Json.str "Word"),
                   ("Parts", Json.arr
                     [Json.obj [("Type", Json.str "Lit"), ("Value", Json.str "-rf")]])],
                 Json.obj
                  [("Type", Json.str "Word"),
                   ("Parts", Json.arr
                     [Json.obj [("Type", Json.str "Lit"), ("Value", Json.str "x")]])]])])]])]

/-- An environments entry of the configuration. -/
structure EnvironmentConfig where
  requireApproval : Option Bool
  slackChannel : Option String
deriving DecidableEq, Repr

/-- A policy rule: an action name or pattern with optional allow and block
    path pattern lists. -/
structure PolicyRule where
  action : String
  allowPaths : Option (List String)
  blockPaths : Option (List String)
deriving DecidableEq, Repr

/-- The settings section of the configuration. -/
structure Settings where
  mode : String
deriving DecidableEq, Repr

/-- The policy section of the configuration.  toolInspection keeps the key
    insertion order of the JSON object it comes from. -/
structure Policy where
  dangerousWords : List String
  ignoredTools : List String
  toolInspection : List (String × String)
  rules : List PolicyRule
deriving DecidableEq, Repr

/-- A fully resolved configuration. -/
structure Config where
  settings : Settings
  policy : Policy
  environments : List (String × EnvironmentConfig)
deriving DecidableEq, Repr

/-- DANGEROUS_WORDS from src/core.ts. -/
def DANGEROUS_WORDS : List String :=
  ["delete", "drop", "remove", "terminate", "refund", "write",
   "update", "destroy", "rm", "rmdir", "purge", "format"]

/-- DEFAULT_CONFIG from src/core.ts. -/
def DEFAULT_CONFIG : Config where
  settings := { mode := "standard" }
  policy :=
    { dangerousWords := DANGEROUS_WORDS
      ignoredTools :=
        ["list_*", "get_*", "read_*", "describe_*", "read", "write", "edit",
         "multiedit", "glob", "grep", "ls", "notebookread", "notebookedit",
         "todoread", "todowrite", "webfetch", "websearch", "exitplanmode",
         "askuserquestion"]
      toolInspection :=
        [("bash", "command"), ("run_shell_command", "command"),
         ("shell", "command"), ("terminal.execute", "command")]
      rules :=
        [{ action := "rm"
           allowPaths := some ["**/node_modules/**", "dist/**", "build/**", ".DS_Store"]
           blockPaths := none }] }
  environments := []

/-- getActiveEnvironment from src/core.ts: look up NODE_ENV (or development
    when it is unset or empty) in the environments table. -/
def getActiveEnvironment (cfg : Config) (nodeEnv : Option String) : Option EnvironmentConfig :=
  let env := match nodeEnv with
    | some e => if e.data.isEmpty then "development" else e
    | none => "development"
  (cfg.environments.find? (fun pr => pr.1 == env)).map (fun pr => pr.2)

/-- The tool-name branch of evaluatePolicy (no shell command extracted):
    review when a dangerous word is a token of the tool name or the mode is
    strict, unless the active environment sets requireApproval to false. -/
def nameDecision (cfg : Config) (nodeEnv : Option String) (toolName : String) : Decision :=
  if containsDangerousWord toolName cfg.policy.dangerousWords
      || cfg.settings.mode == "strict" then
    match getActiveEnvironment cfg nodeEnv with
    | some env => if env.requireApproval == some false then .allow else .review
    | none => .review
  else .allow

/-- The rule lookup of the shell branch: a rule matches an action when its
    action field equals the action, glob-matches it, or does either against
    the slash basename of a path-shaped action. -/
def ruleMatchesAction (r : PolicyRule) (action : String) : Bool :=
  let basename :=
    if action.data.contains '/' then
      (((splitCharsAux (fun c => c = '/') action.data []).map String.mk).getLast?).getD ""
    else action
  r.action == action || matchesPattern action [r.action]
    || (!basename.data.isEmpty
          && (r.action == basename || matchesPattern basename [r.action]))

/-- The first rule found for any detected action, scanning the actions in
    detection order, exactly as the for-loop of evaluatePolicy returns on
    the first action whose find succeeds. -/
def firstMatchedRule (rules : List PolicyRule) : List String → Option PolicyRule
  | [] => none
  | a :: rest =>
    match rules.find? (fun r => ruleMatchesAction r a) with
    | some r => some r
    | none => firstMatchedRule rules rest

/-- The shell branch of evaluatePolicy, deciding from a completed command
    analysis.  The source decides inside the action loop at the first action
    with a matching rule; since the decision depends only on that rule and
    the analysis paths, it equals this lookup-then-decide form. -/
def shellDecision (cfg : Config) (a : ShellAnalysis) : Decision :=
  match firstMatchedRule cfg.policy.rules a.actions with
  | some rule =>
    if !a.paths.isEmpty then
      if a.paths.any (fun p => matchesPattern p (rule.blockPaths.getD [])) then .review
      else if a.paths.all (fun p => matchesPattern p (rule.allowPaths.getD [])) then .allow
      else .review
    else .review
  | none =>
    if a.allTokens.any (fun t =>
        cfg.policy.dangerousWords.any (fun word => t == lowerStr word)) then .review
    else if cfg.settings.mode == "strict" then .review
    else .allow

/-- evaluatePolicy from src/core.ts.  The resolved configuration, the
    NODE_ENV value and the sh-syntax parser outcome (per command string) are
    the ambient inputs of the original, passed explicitly here.  A tool name
    matching ignoredTools is allowed outright; an extracted nonempty shell
    command (the truthiness test of the source) goes to the shell branch;
    everything else goes to the tool-name branch. -/
def evaluatePolicy (ast : String → Option (List (List String))) (cfg : Config)
    (nodeEnv : Option String) (toolName : String) (args : Json) : Decision :=
  if matchesPattern toolName cfg.policy.ignoredTools then .allow
  else
    match extractShellCommand toolName args cfg.policy.toolInspection with
    | some cmd =>
      if cmd.data.isEmpty then nameDecision cfg nodeEnv toolName
      else shellDecision cfg (analyzeShellCommand (ast cmd) cmd)
    | none => nameDecision cfg nodeEnv toolName

/-- The structural-pass contribution of the current analyzeShellCommand for
    any command.  The walk of src/core.ts fires only on nodes whose lowercase
    type field equals CallExpr and recurses only into children that carry a
    lowercase type key, but the serialized sh-syntax parse tree uses
    capitalized keys (Type, Stmts, Cmd, Args, Parts, Value), so the walk
    visits nothing beyond the root and contributes no CallExpr for any
    command (walkCalls and walkCalls_eq_nil below make this precise); a parse
    exception leads to the same empty contribution.  Every command is
    therefore analyzed by the lexical pass. -/
def shParseOracle : String → Option (List (List String)) := fun _ => some []

/-- The settings section as read from a configuration file, where the field
    may be absent. -/
structure ParsedSettings where
  mode : Option String
deriving DecidableEq, Repr

/-- The policy section as read from a configuration file, every field
    optional. -/
structure ParsedPolicy where
  dangerousWords : Option (List String)
  ignoredTools : Option (List String)
  toolInspection : Option (List (String × String))
  rules : Option (List PolicyRule)
deriving DecidableEq, Repr

/-- A parsed configuration file, every top-level section optional. -/
structure ParsedConfig where
  settings : Option ParsedSettings
  policy : Option ParsedPolicy
  environments : Option (List (String × EnvironmentConfig))
deriving DecidableEq, Repr

/-- mergeWithDefaults from src/core.ts.  The object spreads
    spread-defaults-then-spread-parsed give, for each field of the settings
    and policy sections, the parsed value when the field is present and the
    built-in default otherwise; the environments section is taken from the
    parsed file or empty, never from the defaults. -/
def mergeWithDefaults (parsed : ParsedConfig) : Config where
  settings := { mode := (parsed.settings.bind (fun s => s.mode)).getD DEFAULT_CONFIG.settings.mode }
  policy :=
    { dangerousWords :=
        (parsed.policy.bind (fun p => p.dangerousWords)).getD DEFAULT_CONFIG.policy.dangerousWords
      ignoredTools :=
        (parsed.policy.bind (fun p => p.ignoredTools)).getD DEFAULT_CONFIG.policy.ignoredTools
      toolInspection :=
        (parsed.policy.bind (fun p => p.toolInspection)).getD DEFAULT_CONFIG.policy.toolInspection
      rules := (parsed.policy.bind (fun p => p.rules)).getD DEFAULT_CONFIG.policy.rules }
  environments := parsed.environments.getD []

/-- Modelled from the claim wording, for comparison with mergeWithDefaults:
    a present section fully replaces the built-in default section of the
    same name, with no field-by-field merge, so a field the present section
    omits is simply gone (empty). -/
def mergeWholesaleSpec (parsed : ParsedConfig) : Config where
  settings :=
    match parsed.settings with
    | some s => { mode := s.mode.getD "" }
    | none => DEFAULT_CONFIG.settings
  policy :=
    match parsed.policy with
    | some p =>
      { dangerousWords := p.dangerousWords.getD []
        ignoredTools := p.ignoredTools.getD []
        toolInspection := p.toolInspection.getD []
        rules := p.rules.getD [] }
    | none => DEFAULT_CONFIG.policy
  environments := parsed.environments.getD []

/-- getConfig from src/core.ts, with the filesystem reads replaced by their
    outcomes: a source is some parsed value exactly when its file exists,
    parses as JSON and survives validateConfig (a present-but-malformed file
    yields none, which the source treats as absent).  The project file wins
    outright, then the global file, then the built-in defaults. -/
def getConfig (project global : Option ParsedConfig) : Config :=
  match project with
  | some p => mergeWithDefaults p
  | none =>
    match global with
    | some g => mergeWithDefaults g
    | none => DEFAULT_CONFIG

/-- Remote-approval credentials. -/
structure Credentials where
  apiKey : String
  apiUrl : String
deriving DecidableEq, Repr

/-- The reply body the remote approval endpoint returns. -/
structure SaaSReply where
  approved : Bool
  message : Option String
deriving DecidableEq, Repr

/-- The outcome of the single fetch of callNode9SaaS: fail covers a
    transport error and the abort fired by the 35 second timer; resp carries
    the ok flag and status of the response together with the parsed body
    (none when response.json() itself fails). -/
inductive FetchOutcome where
  | fail (msg : String)
  | resp (ok : Bool) (status : Nat) (body : Option SaaSReply)
deriving DecidableEq, Repr

/-- The timeout, in milliseconds, that callNode9SaaS arms before its single
    fetch and whose abort cancels the request. -/
def SAAS_TIMEOUT_MS : Nat := 35000

/-- callNode9SaaS from src/core.ts: the catch-all around the single fetch
    turns a transport failure, an abort, a non-ok status (rethrown inside
    the try) and a body-parse failure all into false; only a parsed body
    with approved true yields true.  The function is total: no outcome
    propagates an exception to the caller. -/
def callNode9SaaS : FetchOutcome → Bool
  | .fail _ => false
  | .resp ok _ body =>
    if !ok then false
    else
      match body with
      | none => false
      | some reply => if reply.approved then true else false

/-- The result record of authorizeHeadless. -/
structure AuthResult where
  approved : Bool
  reason : Option String
deriving DecidableEq, Repr

/-- The denial reason authorizeHeadless returns in the headless case. -/
def headlessReason (toolName : String) : String :=
  "Node9 blocked \"" ++ toolName ++
    "\". Run 'node9 login' to enable Slack approvals, or update node9.config.json policy."

/-- authorizeHeadless from src/core.ts.  Its awaited sub-computations are
    explicit outcomes: policy is what the evaluatePolicy call produces (an
    error when it throws, which the source does not catch — picomatch, for
    one, throws on an empty-string pattern in the configured lists);
    fetchOutcome feeds the single callNode9SaaS call; confirmResult is the
    inquirer confirm promise, whose rejection (for instance on an
    interrupted prompt) the source does not catch either.  Credentials gate
    on a truthy apiKey, exactly as creds?.apiKey does. -/
def authorizeHeadless (toolName : String) (policy : Except String Decision)
    (creds : Option Credentials) (fetchOutcome : FetchOutcome)
    (isTTY : Bool) (confirmResult : Except String Bool) : Except String AuthResult :=
  match policy with
  | .error e => .error e
  | .ok decision =>
    if decision = .allow then .ok { approved := true, reason := none }
    else
      if (match creds with
          | some c => !c.apiKey.data.isEmpty
          | none => false) then
        .ok { approved := callNode9SaaS fetchOutcome, reason := none }
      else if isTTY then
        match confirmResult with
        | .error e => .error e
        | .ok b => .ok { approved := b, reason := none }
      else
        .ok { approved := false, reason := some (headlessReason toolName) }

/-- authorizeAction from src/core.ts, the blocking entry point, with the
    same explicit outcomes as authorizeHeadless.  In the headless case it
    throws the blocked-action error instead of returning a result. -/
def authorizeAction (toolName : String) (policy : Except String Decision)
    (creds : Option Credentials) (fetchOutcome : FetchOutcome)
    (isTTY : Bool) (confirmResult : Except String Bool) : Except String Bool :=
  match policy with
  | .error e => .error e
  | .ok decision =>
    if decision = .allow then .ok true
    else
      if (match creds with
          | some c => !c.apiKey.data.isEmpty
          | none => false) then
        .ok (callNode9SaaS fetchOutcome)
      else if isTTY then confirmResult
      else
        .error ("[Node9] Blocked dangerous action: " ++ toolName ++
          ". Run 'node9 login' to enable remote approval.")

/-- protect from src/index.ts.  The wrapper awaits authorizeAction (here its
    outcome), throws the denial error when it returns false, and calls the
    wrapped function with the original arguments only when it returns true.
    The second component records the invocations of the wrapped function, so
    an empty list means the function was never called. -/
def protect {α β : Type} (toolName : String) (authResult : Except String Bool)
    (fn : α → β) (args : α) : Except String β × List α :=
  match authResult with
  | .error e => (.error e, [])
  | .ok true => (.ok (fn args), [args])
  | .ok false =>
    (.error ("Node9: Execution of " ++ toolName ++ " was denied by the user."), [])

/-- sanitize from src/cli.ts: strip ASCII control characters. -/
def sanitize (s : String) : String :=
  ⟨s.data.filter (fun c => !(c.toNat ≤ 0x1F || c.toNat = 0x7F))⟩

/-- The tool-invocation method names the runProxy line handler recognises. -/
def toolCallMethods : List String := ["call_tool", "tools/call", "use_tool"]

/-- Whether a parsed line is a tool-invocation message: its method property
    is one of the recognised names (strict string equality, as the triple
    equals of the source requires a string). -/
def isToolCallMsg (msg : Json) : Bool :=
  match msg.getField "method" with
  | some (.str m) => toolCallMethods.contains m
  | _ => false

/-- Optional-chained access to a field of message.params. -/
def paramField (msg : Json) (k : String) : Option Json :=
  (msg.getField "params").bind (fun p => p.getField k)

/-- The JavaScript or-else on possibly undefined values: keep the first
    operand when it is present and truthy, otherwise use the second. -/
def jsOrJ (a b : Option Json) : Option Json :=
  match a with
  | some v => if jsTruthy v then some v else b
  | none => b

/-- The tool name the line handler extracts: params.name, else
    params.tool_name, else the literal unknown; the result is sanitized.
    When the winning value is not a string, the sanitize call of the source
    throws a TypeError (there is no replace method on it), which the
    enclosing catch turns into forwarding the line; none models that. -/
def extractedToolName (msg : Json) : Option String :=
  match jsOrJ (paramField msg "name")
      (jsOrJ (paramField msg "tool_name") (some (.str "unknown"))) with
  | some (.str s) => some (sanitize s)
  | _ => none

/-- The synthesized denial response of runProxy: jsonrpc 2.0, the original
    message id when the message had one (JSON.stringify drops an undefined
    id), and the fixed -32000 error. -/
def denyResponse (idField : Option Json) : Json :=
  Json.obj
    ([("jsonrpc", Json.str "2.0")]
      ++ (match idField with
          | some i => [("id", i)]
          | none => [])
      ++ [("error", Json.obj
            [("code", Json.num (-32000)),
             ("message", Json.str "Node9: Action denied.")])])

/-- One line written by the interceptor: either a raw child-output line
    forwarded as-is, or a synthesized JSON value (serialised by
    JSON.stringify in the source). -/
inductive OutLine where
  | raw (line : String)
  | json (j : Json)

/-- What the runProxy line handler writes in reaction to one child-output
    line: toConsumer is written to the interceptor standard output (the
    consumer-output stream), toChild to the child process standard input. -/
structure ProxyOutput where
  toConsumer : List OutLine
  toChild : List OutLine

/-- The child-output line handler of runProxy in src/cli.ts.  parsed is the
    JSON.parse outcome on the line (none when it throws); auth is the
    outcome of the awaited authorizeAction call.  A parse failure, a
    non-matching method, a non-string extracted name (TypeError inside the
    try), an authorization exception (caught by the same catch) and an
    approval all forward the original line to the consumer; only a denial
    suppresses it, writing the synthesized error response to the child
    standard input instead and nothing to the consumer. -/
def processLine (parsed : Option Json) (line : String)
    (auth : Except String Bool) : ProxyOutput :=
  match parsed with
  | none => { toConsumer := [.raw line], toChild := [] }
  | some msg =>
    if isToolCallMsg msg then
      match extractedToolName msg with
      | some _ =>
        match auth with
        | .error _ => { toConsumer := [.raw line], toChild := [] }
        | .ok true => { toConsumer := [.raw line], toChild := [] }
        | .ok false =>
          { toConsumer := []
            toChild := [.json (denyResponse (msg.getField "id"))] }
      | none => { toConsumer := [.raw line], toChild := [] }
    else { toConsumer := [.raw line], toChild := [] }

/-- The tool-invocation message of the proxy denial scenario: the child
    emits a tools/call request for delete_db with id 7. -/
def denialSampleMsg : Json :=
  Json.obj
    [("jsonrpc", Json.str "2.0"), ("id", Json.num 7), ("method", Json.str "tools/call"),
     ("params", Json.obj [("name", Json.str "delete_db"), ("arguments", Json.obj [])])]

/-- The raw line carrying denialSampleMsg on the child output stream. -/
def denialSampleLine : String :=
  "\x7b\"jsonrpc\":\"2.0\",\"id\":7,\"method\":\"tools/call\",\"params\":\x7b\"name\":\"delete_db\",\"arguments\":\x7b\x7d\x7d\x7d"

/-- Claim C1: a tool name matching any ignoredTools pattern is allowed by
    evaluatePolicy regardless of the dangerous words, the mode, the rules,
    the environment and the arguments — the ignored-tools check is the first
    step of the function and overrides everything else. -/
theorem spec_C1 (ast : String → Option (List (List String))) (cfg : Config)
    (nodeEnv : Option String) (toolName : String) (args : Json)
    (h : matchesPattern toolName cfg.policy.ignoredTools = true) :
    evaluatePolicy ast cfg nodeEnv toolName args = .allow := by
  unfold evaluatePolicy
  simp [h]

/-- Witness for C1: with a strict-mode configuration whose dangerousWords
    contain delete and whose ignoredTools contain the pattern that matches
    delete_user, the decision is still allow. -/
theorem spec_C1_witness :
    matchesPattern "delete_user" ["delete_*"] = true
    ∧ evaluatePolicy shParseOracle
        ⟨⟨"strict"⟩, ⟨["delete"], ["delete_*"], [], []⟩, []⟩ none "delete_user" Json.null
        = .allow :=
  ⟨by decide, spec_C1 shParseOracle ⟨⟨"strict"⟩, ⟨["delete"], ["delete_*"], [], []⟩, []⟩
    none "delete_user" Json.null (by decide)⟩

/-- Claim C2: when the tool is not ignored, no shell command is extracted,
    the mode is standard and the active environment does not disable
    approval, evaluatePolicy reviews exactly when a whole separator token of
    the tool name equals a configured dangerous word, case-insensitively;
    under the default configuration, confirm_action is allowed even though
    it contains rm as a substring of no token, while delete_user is
    reviewed. -/
theorem spec_C2 (ast : String → Option (List (List String))) (cfg : Config)
    (nodeEnv : Option String) (toolName : String) (args : Json)
    (h1 : matchesPattern toolName cfg.policy.ignoredTools = false)
    (h2 : extractShellCommand toolName args cfg.policy.toolInspection = none)
    (h3 : cfg.settings.mode = "standard")
    (h4 : ∀ env, getActiveEnvironment cfg nodeEnv = some env → env.requireApproval ≠ some false) :
    (evaluatePolicy ast cfg nodeEnv toolName args = .review
      ↔ containsDangerousWord toolName cfg.policy.dangerousWords = true)
    ∧ evaluatePolicy shParseOracle DEFAULT_CONFIG none "confirm_action" Json.null = .allow
    ∧ "confirm_action" = "confi" ++ "rm" ++ "_action"
    ∧ evaluatePolicy shParseOracle DEFAULT_CONFIG none "delete_user" Json.null = .review := by
  refine ⟨?_, by decide, by decide, by decide⟩
  unfold evaluatePolicy nameDecision
  simp [h1, h2, h3]
  cases hD : containsDangerousWord toolName cfg.policy.dangerousWords
  · simp
  · simp
    cases hE : getActiveEnvironment cfg nodeEnv with
    | none => simp
    | some env =>
      have hne := h4 env hE
      have : (env.requireApproval == some false) = false := by
        cases henv : env.requireApproval with
        | none => rfl
        | some b => cases b <;> simp_all
      simp [this]
      exact hne

/-- Witness for C2: the default configuration satisfies all hypotheses for
    the tool name send_notification, whose decision is allow since no token
    is a dangerous word. -/
theorem spec_C2_witness :
    evaluatePolicy shParseOracle DEFAULT_CONFIG none "send_notification" Json.null = .allow := by
  have h := (spec_C2 shParseOracle DEFAULT_CONFIG none "send_notification" Json.null
      (by decide) (by decide) rfl
      (by intro env hE; exact Option.noConfusion hE)).1
  cases hv : evaluatePolicy shParseOracle DEFAULT_CONFIG none "send_notification" Json.null with
  | allow => rfl
  | review => exact absurd (h.mp hv) (by decide)

/-- Claim C3: with a shell command analysed and a detected action matching a
    rule, any detected path matching blockPaths forces review; otherwise
    full allowPaths coverage of a nonempty path set yields allow; partial
    coverage and a matched rule with no detected paths yield review; under
    the default configuration rm -rf node_modules is allowed while
    rm -rf src and rm -rf /etc are reviewed. -/
theorem spec_C3 (ast : String → Option (List (List String))) (cfg : Config)
    (nodeEnv : Option String) (toolName : String) (args : Json) (cmd : String) (r : PolicyRule)
    (h1 : matchesPattern toolName cfg.policy.ignoredTools = false)
    (h2 : extractShellCommand toolName args cfg.policy.toolInspection = some cmd)
    (h3 : cmd.data.isEmpty = false)
    (h4 : firstMatchedRule cfg.policy.rules (analyzeShellCommand (ast cmd) cmd).actions = some r) :
    ((analyzeShellCommand (ast cmd) cmd).paths.any
        (fun p => matchesPattern p (r.blockPaths.getD [])) = true →
      evaluatePolicy ast cfg nodeEnv toolName args = .review)
    ∧ ((analyzeShellCommand (ast cmd) cmd).paths.isEmpty = false →
        (analyzeShellCommand (ast cmd) cmd).paths.any
          (fun p => matchesPattern p (r.blockPaths.getD [])) = false →
        (analyzeShellCommand (ast cmd) cmd).paths.all
          (fun p => matchesPattern p (r.allowPaths.getD [])) = true →
        evaluatePolicy ast cfg nodeEnv toolName args = .allow)
    ∧ ((analyzeShellCommand (ast cmd) cmd).paths.isEmpty = true →
        evaluatePolicy ast cfg nodeEnv toolName args = .review)
    ∧ ((analyzeShellCommand (ast cmd) cmd).paths.any
          (fun p => matchesPattern p (r.blockPaths.getD [])) = false →
        (analyzeShellCommand (ast cmd) cmd).paths.all
          (fun p => matchesPattern p (r.allowPaths.getD [])) = false →
        evaluatePolicy ast cfg nodeEnv toolName args = .review)
    ∧ evaluatePolicy shParseOracle DEFAULT_CONFIG none "bash"
        (Json.obj [("command", Json.str "rm -rf node_modules")]) = .allow
    ∧ evaluatePolicy shParseOracle DEFAULT_CONFIG none "bash"
        (Json.obj [("command", Json.str "rm -rf src")]) = .review
    ∧ evaluatePolicy shParseOracle DEFAULT_CONFIG none "bash"
        (Json.obj [("command", Json.str "rm -rf /etc")]) = .review := by
  have hE : evaluatePolicy ast cfg nodeEnv toolName args
      = shellDecision cfg (analyzeShellCommand (ast cmd) cmd) := by
    unfold evaluatePolicy
    simp [h1, h2, h3]
  refine ⟨?_, ?_, ?_, ?_, by decide, by decide, by decide⟩
  · intro hb
    rw [hE]
    unfold shellDecision
    rw [h4]
    have hne : (analyzeShellCommand (ast cmd) cmd).paths.isEmpty = false := by
      cases hp : (analyzeShellCommand (ast cmd) cmd).paths with
      | nil => rw [hp] at hb; simp at hb
      | cons a l => simp
    simp [hne, hb]
  · intro hne hb ha
    rw [hE]
    unfold shellDecision
    rw [h4]
    simp [hne, hb, ha]
  · intro hp
    rw [hE]
    unfold shellDecision
    rw [h4]
    simp [hp]
  · intro hb ha
    rw [hE]
    unfold shellDecision
    rw [h4]
    by_cases hp : (analyzeShellCommand (ast cmd) cmd).paths.isEmpty
    · simp [hp]
    · simp at hp
      simp [hp, hb, ha]

/-- Witness for C3: applying the theorem at the default configuration and
    the command rm -rf node_modules, whose single path is covered by the
    allowPaths of the default rm rule, yields allow. -/
theorem spec_C3_witness :
    evaluatePolicy shParseOracle DEFAULT_CONFIG none "bash"
      (Json.obj [("command", Json.str "rm -rf node_modules")]) = .allow :=
  (spec_C3 shParseOracle DEFAULT_CONFIG none "bash"
      (Json.obj [("command", Json.str "rm -rf node_modules")]) "rm -rf node_modules"
      { action := "rm",
        allowPaths := some ["**/node_modules/**", "dist/**", "build/**", ".DS_Store"],
        blockPaths := none }
      (by decide) (by decide) (by decide) (by decide)).2.1
    (by decide) (by decide) (by decide)

/-- Claim C4: the analysis defeats path-qualified binaries and command
    chaining under the default configuration: /usr/bin/rm file.txt is
    reviewed (rm is reached through the slash decomposition of the action
    and through the token segments) and echo hi piped into rm is reviewed
    (the chained segment contributes rm as an action). -/
theorem spec_C4 :
    evaluatePolicy shParseOracle DEFAULT_CONFIG none "bash"
        (Json.obj [("command", Json.str "/usr/bin/rm file.txt")]) = .review
    ∧ evaluatePolicy shParseOracle DEFAULT_CONFIG none "bash"
        (Json.obj [("command", Json.str "echo hi | rm")]) = .review
    ∧ "rm" ∈ (analyzeShellCommand (shParseOracle "/usr/bin/rm file.txt")
        "/usr/bin/rm file.txt").allTokens
    ∧ (firstMatchedRule DEFAULT_CONFIG.policy.rules ["/usr/bin/rm"]).isSome = true
    ∧ "rm" ∈ (analyzeShellCommand (shParseOracle "echo hi | rm") "echo hi | rm").actions := by
  decide

/-- Helper: a flatMap whose function is nil on every element is nil. -/
theorem flatMap_nil_of {α β : Type} (l : List α) (g : α → List β)
    (h : ∀ x ∈ l, g x = []) : l.flatMap g = [] := by
  induction l with
  | nil => rfl
  | cons a t ih =>
    rw [List.flatMap_cons, h a (by simp), ih (fun x hx => h x (by simp [hx]))]
    rfl

/-- Helper: on a node that is not a lowercase-typed CallExpr and none of
    whose walked children carries a lowercase type key — the situation of
    every node of the capitalized sh-syntax serialization — the walk
    contributes nothing, for every fuel value. -/
theorem walkCalls_eq_nil (fuel : Nat) (node : Json)
    (h1 : typeIsCallExpr node = false) (h2 : noTypedChildren node = true) :
    walkCalls fuel node = [] := by
  cases fuel with
  | zero => rfl
  | succ n =>
    unfold walkCalls
    rw [h1]
    simp only [Bool.false_eq_true, if_false, List.nil_append]
    apply flatMap_nil_of
    intro f hf
    by_cases hpar : (f.1 == "Parent") = true
    · simp [hpar]
    · have hok : (match f.2 with
          | .arr xs => xs.all (fun child => !hasTypeKey child)
          | v => !hasTypeKey v) = true := by
        cases hnode : node with
        | obj fs =>
          have h2f := h2
          unfold noTypedChildren at h2f
          rw [hnode] at h2f
          have := List.all_eq_true.mp h2f f (by rw [hnode] at hf; simpa [nodeFields] using hf)
          rcases Bool.or_eq_true_iff.mp this with hc | hc
          · exact absurd hc hpar
          · exact hc
        | null => rw [hnode] at hf; simp [nodeFields] at hf
        | bool b => rw [hnode] at hf; simp [nodeFields] at hf
        | num m => rw [hnode] at hf; simp [nodeFields] at hf
        | str sx => rw [hnode] at hf; simp [nodeFields] at hf
        | arr xs => rw [hnode] at hf; simp [nodeFields] at hf
      rw [if_neg hpar]
      cases hv : f.2 with
      | arr xs =>
        rw [hv] at hok
        apply flatMap_nil_of
        intro child hchild
        have hcx := List.all_eq_true.mp hok child hchild
        simp only [Bool.not_eq_true'] at hcx
        simp [hcx]
      | null => rw [hv] at hok; simp only [Bool.not_eq_true'] at hok; simp [hok]
      | bool b => rw [hv] at hok; simp only [Bool.not_eq_true'] at hok; simp [hok]
      | num m => rw [hv] at hok; simp only [Bool.not_eq_true'] at hok; simp [hok]
      | str sx => rw [hv] at hok; simp only [Bool.not_eq_true'] at hok; simp [hok]
      | obj gs => rw [hv] at hok; simp only [Bool.not_eq_true'] at hok; simp [hok]

/-- Claim C5: the analyzer runs the structural pass and the lexical pass and
    the result is their union — extensionally, the structural pass never
    contributes anything, because its walk fires only on a lowercase type
    discriminator that the capitalized sh-syntax serialization never
    carries, so the guard on the lexical pass never skips it: for every
    parse outcome (exception, or any tree without lowercase type keys) the
    analysis is exactly the lexical findings, and the committed obfuscation
    tests (a piped quoted rm, a backslash-escaped rm) are reviewed through
    that lexical pass under the default configuration. -/
theorem spec_C5 (parsed : Option Json) (fuel : Nat) (command : String)
    (h : ∀ ast, parsed = some ast →
        typeIsCallExpr ast = false ∧ noTypedChildren ast = true) :
    (∀ ast, parsed = some ast → walkCalls fuel ast = [])
    ∧ analyzeShellCommand (parsed.map (walkCalls fuel)) command
        = lexicalPass ⟨[], [], []⟩ command
    ∧ analyzeShellCommand (shParseOracle command) command
        = lexicalPass ⟨[], [], []⟩ command
    ∧ evaluatePolicy shParseOracle DEFAULT_CONFIG none "bash"
        (Json.obj [("command", Json.str "echo \"rm -rf /\" | bash")]) = .review
    ∧ evaluatePolicy shParseOracle DEFAULT_CONFIG none "bash"
        (Json.obj [("command", Json.str "r\\m -rf /")]) = .review := by
  have hw : ∀ ast, parsed = some ast → walkCalls fuel ast = [] := by
    intro ast hp
    obtain ⟨h1, h2⟩ := h ast hp
    exact walkCalls_eq_nil fuel ast h1 h2
  refine ⟨hw, ?_, rfl, by decide, by decide⟩
  cases hp : parsed with
  | none => rfl
  | some ast =>
    have hnil := hw ast hp
    simp only [Option.map_some']
    rw [hnil]
    rfl

/-- Witness for C5: on a capitalized sh-syntax tree for rm -rf x — whose
    CallExpr node sits behind children without lowercase type keys — the
    walk contributes nothing and the analysis equals the lexical findings. -/
theorem spec_C5_witness :
    walkCalls 9 shSampleAst = []
    ∧ analyzeShellCommand ((some shSampleAst).map (walkCalls 9)) "rm -rf x"
        = lexicalPass ⟨[], [], []⟩ "rm -rf x" :=
  ⟨(spec_C5 (some shSampleAst) 9 "rm -rf x"
      (fun ast hp => by cases hp; exact ⟨by decide, by decide⟩)).1 shSampleAst rfl,
   (spec_C5 (some shSampleAst) 9 "rm -rf x"
      (fun ast hp => by cases hp; exact ⟨by decide, by decide⟩)).2.1⟩

/-- Claim C6 (amended): a parse failure, a non-matching method, a non-string
    extracted tool name, an authorization exception and an approval all
    forward the original line unchanged to the consumer output; a denial
    suppresses the original line on both streams and writes the synthesized
    error response, reusing the original message id with code -32000, to the
    child standard input (the requesting side) — the consumer output
    receives nothing for that line. -/
theorem spec_C6 (msg : Json) (line : String) (auth : Except String Bool) (e : String) :
    processLine none line auth = ⟨[.raw line], []⟩
    ∧ (isToolCallMsg msg = false → processLine (some msg) line auth = ⟨[.raw line], []⟩)
    ∧ (isToolCallMsg msg = true → (extractedToolName msg).isSome = true →
        processLine (some msg) line (.ok true) = ⟨[.raw line], []⟩
        ∧ processLine (some msg) line (.error e) = ⟨[.raw line], []⟩
        ∧ processLine (some msg) line (.ok false)
            = ⟨[], [.json (denyResponse (msg.getField "id"))]⟩) := by
  refine ⟨rfl, ?_, ?_⟩
  · intro h
    unfold processLine
    simp [h]
  · intro h1 h2
    unfold processLine
    cases hx : extractedToolName msg with
    | none => rw [hx] at h2; simp at h2
    | some s => simp [h1, hx]

/-- Witness for C6: the denial scenario message with id 7 is suppressed and
    the synthesized error response carrying id 7 is emitted toward the
    child. -/
theorem spec_C6_witness :
    processLine (some denialSampleMsg) denialSampleLine (.ok false)
      = ⟨[], [.json (denyResponse (some (Json.num 7)))]⟩ :=
  ((spec_C6 denialSampleMsg denialSampleLine (.ok false) "err").2.2
    (by decide) (by decide)).2.2

/-- Counterexample for C6 as stated: on the denied sample line the consumer
    output stream receives nothing at all — in particular not the
    synthesized error response, which goes to the child standard input
    instead. -/
theorem spec_C6_counterexample :
    (processLine (some denialSampleMsg) denialSampleLine (.ok false)).toConsumer = []
    ∧ (processLine (some denialSampleMsg) denialSampleLine (.ok false)).toConsumer
        ≠ [.json (denyResponse (some (Json.num 7)))] := by
  refine ⟨rfl, ?_⟩
  intro h
  exact List.noConfusion h

/-- Claim C7 (amended): the first existing and valid source wins outright
    over later sources (a project configuration fully shadows the global
    one, with no cross-source merge), and each of its sections is merged
    field by field against the built-in default section: a field present in
    the section, such as an empty dangerousWords list, overrides the default
    even when the shadowed global file or the defaults have a populated one,
    while a field the section omits falls back to the default field. -/
theorem spec_C7 (p : ParsedConfig) (pp : ParsedPolicy) (g : Option ParsedConfig)
    (h : p.policy = some pp) :
    getConfig (some p) g = mergeWithDefaults p
    ∧ (pp.dangerousWords = some [] → (getConfig (some p) g).policy.dangerousWords = [])
    ∧ (pp.ignoredTools = none →
        (getConfig (some p) g).policy.ignoredTools = DEFAULT_CONFIG.policy.ignoredTools) := by
  refine ⟨rfl, ?_, ?_⟩ <;> intro h2 <;> simp [getConfig, mergeWithDefaults, h, h2]

/-- Witness for C7: a project file whose policy has only an empty
    dangerousWords list, against a global file with a populated one, yields
    empty dangerousWords and the default ignoredTools. -/
theorem spec_C7_witness :
    (getConfig (some ⟨none, some ⟨some [], none, none, none⟩, none⟩)
        (some ⟨none, some ⟨some ["nuke"], none, none, none⟩, none⟩)).policy.dangerousWords = []
    ∧ (getConfig (some ⟨none, some ⟨some [], none, none, none⟩, none⟩)
        (some ⟨none, some ⟨some ["nuke"], none, none, none⟩, none⟩)).policy.ignoredTools
        = DEFAULT_CONFIG.policy.ignoredTools :=
  ⟨(spec_C7 ⟨none, some ⟨some [], none, none, none⟩, none⟩ ⟨some [], none, none, none⟩
      (some ⟨none, some ⟨some ["nuke"], none, none, none⟩, none⟩) rfl).2.1 rfl,
   (spec_C7 ⟨none, some ⟨some [], none, none, none⟩, none⟩ ⟨some [], none, none, none⟩
      (some ⟨none, some ⟨some ["nuke"], none, none, none⟩, none⟩) rfl).2.2 rfl⟩

/-- Counterexample for C7 as stated: a policy section carrying only an empty
    dangerousWords list does not fully replace the default policy section —
    the merged configuration keeps the populated default ignoredTools, while
    wholesale replacement as the claim words it would leave them empty. -/
theorem spec_C7_counterexample :
    mergeWithDefaults ⟨none, some ⟨some [], none, none, none⟩, none⟩
      ≠ mergeWholesaleSpec ⟨none, some ⟨some [], none, none, none⟩, none⟩
    ∧ (mergeWithDefaults ⟨none, some ⟨some [], none, none, none⟩, none⟩).policy.ignoredTools
        = DEFAULT_CONFIG.policy.ignoredTools
    ∧ (mergeWholesaleSpec ⟨none, some ⟨some [], none, none, none⟩, none⟩).policy.ignoredTools
        = [] := by
  decide

/-- Claim C8 (amended): authorizeHeadless has no exception boundary — an
    error from the policy evaluation propagates unchanged — but when the
    evaluation completes and the process is headless (no credentials, no
    terminal), a review decision yields approved false with the login
    guidance reason, without raising. -/
theorem spec_C8 (toolName : String) (fo : FetchOutcome) (cr : Except String Bool) (e : String) :
    authorizeHeadless toolName (.ok .review) none fo false cr
      = .ok ⟨false, some (headlessReason toolName)⟩
    ∧ authorizeHeadless toolName (.ok .allow) none fo false cr = .ok ⟨true, none⟩
    ∧ authorizeHeadless toolName (.error e) none fo false cr = .error e :=
  ⟨rfl, rfl, rfl⟩

/-- Counterexample for C8 as stated: a rejection of the interactive confirm
    prompt propagates out of authorizeHeadless, and so does an error thrown
    inside the policy evaluation — neither is converted into a structured
    denial at the function boundary. -/
theorem spec_C8_counterexample :
    authorizeHeadless "delete_user" (.ok .review) none (.fail "offline") true
        (.error "ExitPromptError: User force closed the prompt")
      = .error "ExitPromptError: User force closed the prompt"
    ∧ authorizeHeadless "delete_user" (.error "simulated internal evaluation failure") none
        (.fail "offline") false (.ok false)
      = .error "simulated internal evaluation failure" :=
  ⟨rfl, rfl⟩

/-- Claim C9: the remote approval call is a single fetch with a 35000
    millisecond abort deadline; it returns true exactly on a success
    response whose parsed body has approved true, and every failure mode —
    transport error or abort, non-success status, unparseable body, or a
    body with approved false — returns false rather than propagating an
    exception; on a review decision with credentials the blocking entry
    point returns exactly that boolean. -/
theorem spec_C9 (o fo : FetchOutcome) (tn url key : String) (tty : Bool)
    (cr : Except String Bool) (hkey : key.data.isEmpty = false) :
    (callNode9SaaS o = true ↔ ∃ st r, o = .resp true st (some r) ∧ r.approved = true)
    ∧ SAAS_TIMEOUT_MS = 35000
    ∧ authorizeAction tn (.ok .review) (some ⟨key, url⟩) fo tty cr = .ok (callNode9SaaS fo) := by
  refine ⟨?_, rfl, ?_⟩
  · cases o with
    | fail m => simp [callNode9SaaS]
    | resp ok st body =>
      cases ok with
      | false => simp [callNode9SaaS]
      | true =>
        cases body with
        | none => simp [callNode9SaaS]
        | some r =>
          cases hr : r.approved with
          | false => simp [callNode9SaaS, hr]
          | true =>
            simp [callNode9SaaS, hr]
            exact ⟨st, r, ⟨rfl, rfl⟩, hr⟩
  · unfold authorizeAction
    simp [hkey]

/-- Witness for C9: with credentials configured, an aborted fetch resolves
    the review to a denial rather than an exception, and a success response
    with approved true is the one approving outcome. -/
theorem spec_C9_witness :
    authorizeAction "delete_user" (.ok .review)
        (some ⟨"k", "https://api.node9.ai/api/v1/intercept"⟩)
        (.fail "This operation was aborted") false (.ok false)
      = .ok false
    ∧ callNode9SaaS (.resp true 200 (some ⟨true, some "Approved"⟩)) = true :=
  ⟨(spec_C9 (.fail "x") (.fail "This operation was aborted") "delete_user"
      "https://api.node9.ai/api/v1/intercept" "k" false (.ok false) (by decide)).2.2,
   (spec_C9 (.resp true 200 (some ⟨true, some "Approved"⟩)) (.fail "x") "delete_user"
      "https://api.node9.ai/api/v1/intercept" "k" false (.ok false) (by decide)).1.mpr
     ⟨200, ⟨true, some "Approved"⟩, rfl, rfl⟩⟩

/-- Claim C10: the wrapper returned by protect invokes the wrapped function
    exactly when authorization succeeds — on true it calls it with the
    original arguments and returns its result, on false it throws the denial
    error without any invocation, and an authorization exception also
    propagates without any invocation. -/
theorem spec_C10 {α β : Type} (toolName : String) (fn : α → β) (args : α) (e : String) :
    protect toolName (.ok true) fn args = (.ok (fn args), [args])
    ∧ protect toolName (.ok false) fn args
        = (.error ("Node9: Execution of " ++ toolName ++ " was denied by the user."), [])
    ∧ protect toolName (.error e) fn args = (.error e, []) :=
  ⟨rfl, rfl, rfl⟩
